import Mathlib

/-!
Shallow embedding of the scoring / temporal-aggregation engine of
src/app.py (Bourbon Chasers Strava tracker) together with proofs about
the properties stated in the specification.

Conventions used throughout:
* Numeric cell values (zone minutes, points, distances, week numbers read
  from the sheet) are rationals; pandas `to_numeric(errors="coerce")` is an
  `Option ℚ` argument where `none` is the NaN produced for a non-numeric
  cell.
* Calendar dates are integer day numbers.  Day 0 is the competition start
  2024-03-10 (a Sunday), so a value `d` means the date `d` days after the
  start.  Python floor division `//` and `%` by the positive constant 7
  agree with the integer `/` and `%` used here.
* Dataframes are lists of records; a pandas groupby sorts its keys, which
  for strings is a lexicographic comparison of code points, embedded below.
-/

/-- Code point of a character, the unit of comparison Python uses when
sorting participant name strings. -/
def charVal (c : Char) : ℕ := c.toNat

/-- Lexicographic strict order on code-point lists, as Python compares
strings (used by the pandas groupby key sort in app.py line 361). -/
def dataLt : List Char → List Char → Bool
  | _, [] => false
  | [], _ :: _ => true
  | a :: as, b :: bs =>
      if charVal a < charVal b then true
      else if charVal b < charVal a then false
      else dataLt as bs

/-- Non-strict string comparison derived from `dataLt`. -/
def strLe (a b : String) : Bool := !(dataLt b.data a.data)

/-- Normalization of one raw zone cell, app.py line 221:
`pd.to_numeric(weekly_data[col], errors="coerce").fillna(0)`.
A non-numeric cell (NaN, modelled by `none`) becomes 0; numeric cells are
kept as they are. -/
def coerceZone (v : Option ℚ) : ℚ := v.getD 0

/-- Derived points of one activity row, app.py lines 223-227:
`Zone 1 * 1 + Zone 2 * 2 + Zone 3 * 3 + Zone 4 * 4 + Zone 5 * 5`. -/
def pointsCalc (z1 z2 z3 z4 z5 : ℚ) : ℚ :=
  z1 * 1 + z2 * 2 + z3 * 3 + z4 * 4 + z5 * 5

/-- Dynamic week number, app.py lines 266-282 (`get_current_week`), as a
function of `days = today - start_date` in days.  The source returns 1 when
today is before the fixed start date, otherwise computes
`days_since_start // 7 + 1` clamped to the interval [1, 8]; Python floor
division equals integer division here because the guard makes `days`
non-negative on the dividing branch. -/
def get_current_week (days : ℤ) : ℤ :=
  if days < 0 then 1
  else min (max (days / 7 + 1) 1) 8

/-- The fixed end date of the first competition week, as an offset from the
start date: the first week is the 7-day span starting at the start date
2024-03-10, so it ends 6 days later. -/
def E1 : ℤ := 6

/-- Percentage change of a week-to-date aggregate against the previous
week-to-date aggregate, app.py lines 570-575 (distance), 635-640 (activity
count) and 694-699 (points), which are three copies of the same branch:
`if prev > 0: (cur - prev) / prev * 100 elif cur > 0: 100.0 else: 0.0`. -/
def pct_change (prev cur : ℚ) : ℚ :=
  if 0 < prev then (cur - prev) / prev * 100
  else if 0 < cur then 100
  else 0

/-- One scored activity record as read by `calculate_leaderboard`
(app.py lines 357-388): its Participant, Week and Points columns.  The Week
cell has already been through `pd.to_numeric(errors="coerce")` (line 383),
so it is a rational or NaN (`none`). -/
structure SRec where
  participant : String
  week : Option ℚ
  points : ℚ
deriving DecidableEq

/-- Cumulative points of one participant:
`data.groupby("Participant")["Points"].sum()` restricted to the group of
that participant (app.py line 361). -/
def totalPoints (recs : List SRec) (p : String) : ℚ :=
  ((recs.filter (fun r => r.participant = p)).map (fun r => r.points)).sum

/-- The distinct participant names in the sorted order a pandas groupby
produces (groupby sorts its keys; insertion sort over the code-point
comparison `strLe`). -/
def participantsSorted (recs : List SRec) : List String :=
  ((recs.map (fun r => r.participant)).dedup).insertionSort
    (fun a b => strLe a b = true)

/-- The grouped table of app.py line 361: one (participant, summed points)
pair per distinct participant. -/
def groupTotals (recs : List SRec) : List (String × ℚ) :=
  (participantsSorted recs).map (fun p => (p, totalPoints recs p))

/-- `leaderboard.sort_values(by="Points", ascending=False)` of app.py line
362: sort the grouped pairs by points, largest first (stable insertion
sort). -/
def sortDesc (l : List (String × ℚ)) : List (String × ℚ) :=
  l.insertionSort (fun a b => b.2 ≤ a.2)

/-- The grouped table after the descending sort. -/
def sortedTotals (recs : List SRec) : List (String × ℚ) :=
  sortDesc (groupTotals recs)

/-- `max_points = leaderboard["Points"].iloc[0]` of app.py line 366: the
points entry of the first row of the sorted table (only used when the
table is non-empty). -/
def topPoints (recs : List SRec) : ℚ :=
  ((sortedTotals recs).headD ("", 0)).2

/-- Summed points of one participant within one competition week,
app.py line 385:
`data[data["Week"] == week_num].groupby("Participant")["Points"].sum()`
restricted to the group of that participant. -/
def weekSum (recs : List SRec) (w : ℕ) (p : String) : ℚ :=
  ((recs.filter (fun r => r.participant = p ∧ r.week = some (w : ℚ))).map
    (fun r => r.points)).sum

/-- The numpy cast `.astype(int)` of app.py line 386 applied to a float
value: truncation toward zero. -/
def astypeInt (q : ℚ) : ℤ :=
  if 0 ≤ q then ⌊q⌋ else -⌊-q⌋

/-- The list of "Week w Totals" cells of one leaderboard row for weeks
1..tw, app.py lines 384-386: per-week summed points, missing
participant/week combinations filled with 0, then cast to int. -/
def weeklyTotals (recs : List SRec) (tw : ℕ) (p : String) : List ℤ :=
  (List.range tw).map (fun j => astypeInt (weekSum recs (j + 1) p))

/-- One row of the leaderboard table produced by `calculate_leaderboard`:
Rank, Participant, Points, Points Behind and the per-week totals columns. -/
structure LRow where
  rank : ℕ
  participant : String
  points : ℚ
  pointsBehind : ℚ
  weekly : List ℤ
deriving DecidableEq

/-- Builds the leaderboard rows from the sorted (participant, points)
pairs: rank is the 1-based position (`leaderboard.index + 1`, app.py line
373), points behind is `max_points - points` (line 367) and the weekly
totals columns are added per participant (lines 384-386). -/
def mkRows (recs : List SRec) (tw : ℕ) (top : ℚ) :
    ℕ → List (String × ℚ) → List LRow
  | _, [] => []
  | i, (p, pts) :: rest =>
      { rank := i + 1, participant := p, points := pts,
        pointsBehind := top - pts,
        weekly := weeklyTotals recs tw p } :: mkRows recs tw top (i + 1) rest

/-- The rows of the leaderboard of `calculate_leaderboard` (app.py lines
357-388) on a table that has Participant and Points columns. -/
def leaderboardRows (recs : List SRec) (tw : ℕ) : List LRow :=
  mkRows recs tw (topPoints recs) 0 (sortedTotals recs)

/-- The column set of the empty leaderboard structure returned by the guard
of app.py lines 358-359. -/
def leaderboard_base_cols : List String :=
  ["Rank", "Participant", "Points", "Points Behind"]

/-- Header of the per-week totals column of one week. -/
def weekColName (w : ℕ) : String := "Week " ++ toString w ++ " Totals"

/-- `calculate_leaderboard(data, total_weeks)` of app.py lines 357-388 as a
(columns, rows) pair.  The two booleans state whether the Participant and
Points columns exist in the input; the guard of lines 358-359 returns an
empty table with the four base columns when the input is empty or either
column is missing. -/
def calculate_leaderboard (hasParticipant hasPoints : Bool)
    (recs : List SRec) (tw : ℕ) : List String × List LRow :=
  if recs.isEmpty || !hasParticipant || !hasPoints then
    (leaderboard_base_cols, [])
  else
    (leaderboard_base_cols ++ (List.range tw).map (fun j => weekColName (j + 1)),
     leaderboardRows recs tw)

/-- `biggest_mover` of app.py lines 403-414: guarded by a positive current
week, a non-empty leaderboard and the presence of the current week column;
`idxmax` picks the first row attaining the maximum of that column.
`firstMaxBy` keeps the earlier row on ties, as idxmax does. -/
def firstMaxBy (f : LRow → ℤ) : List LRow → Option LRow
  | [] => none
  | r :: rs =>
      match firstMaxBy f rs with
      | none => some r
      | some m => if f r < f m then some m else some r

/-- The "Week w Totals" cell of one leaderboard row. -/
def weeklyVal (row : LRow) (w : ℕ) : ℤ := row.weekly.getD (w - 1) 0

/-- The biggest-mover view of app.py lines 403-414: the participant (and
week value) of the first leaderboard row attaining the maximum of the
current week column, or `none` when a guard fails (week 0, empty
leaderboard, or missing column). -/
def biggest_mover (recs : List SRec) (curWeek tw : ℕ) :
    Option (String × ℤ) :=
  if 0 < curWeek ∧ leaderboardRows recs tw ≠ [] ∧ curWeek ≤ tw then
    (firstMaxBy (fun row => weeklyVal row curWeek) (leaderboardRows recs tw)).map
      (fun row => (row.participant, weeklyVal row curWeek))
  else none

/-- One raw row of the Excel batch as far as normalization is concerned:
the date parse result of `pd.to_datetime(errors="coerce")` (app.py line
207, `none` for an unparseable date), the participant cell and the raw
results of the per-cell numeric parses of the five zone columns and the
Week column (`none` for a non-numeric cell). -/
structure RawRow where
  date : Option ℤ
  participant : String
  zone1 : Option ℚ
  zone2 : Option ℚ
  zone3 : Option ℚ
  zone4 : Option ℚ
  zone5 : Option ℚ
  week : Option ℚ
deriving DecidableEq

/-- One normalized activity row after preprocessing: parsed date, coerced
zone minutes, derived points and the (possibly NaN) numeric week. -/
structure NormRow where
  date : ℤ
  participant : String
  z1 : ℚ
  z2 : ℚ
  z3 : ℚ
  z4 : ℚ
  z5 : ℚ
  points : ℚ
  week : Option ℚ
deriving DecidableEq

/-- Normalization of one raw row that survived the date drop (app.py lines
215-234): each zone cell coerced with 0 for non-numeric, and the points
cell derived from the coerced zones. -/
def normRow (r : RawRow) : NormRow :=
  { date := r.date.getD 0
    participant := r.participant
    z1 := coerceZone r.zone1
    z2 := coerceZone r.zone2
    z3 := coerceZone r.zone3
    z4 := coerceZone r.zone4
    z5 := coerceZone r.zone5
    points := pointsCalc (coerceZone r.zone1) (coerceZone r.zone2)
      (coerceZone r.zone3) (coerceZone r.zone4) (coerceZone r.zone5)
    week := r.week }

/-- The preprocessing of app.py lines 204-256 on a non-empty batch: drop
the rows whose date failed to parse (line 209), sort by date with the most
recent first (line 212), then coerce the zone columns and derive the
points column.  The `getD 0` is only ever applied to rows whose date
parse succeeded. -/
def preprocess (rows : List RawRow) : List NormRow :=
  (((rows.filter (fun r => r.date.isSome)).insertionSort
      (fun a b => b.date.getD 0 ≤ a.date.getD 0)).map normRow)

/-- The expected column set of the normalized table, app.py lines 260-261. -/
def expected_cols : List String :=
  ["Date", "Participant", "Workout Type", "Total Duration", "Total Distance",
   "Zone 1", "Zone 2", "Zone 3", "Zone 4", "Zone 5", "Points", "Week"]

/-- The data loading and preprocessing branch of app.py lines 201-262 as a
(columns, rows) pair: a failed load (`none`) or an empty batch skips
preprocessing and yields the empty frame built with `expected_cols`
(lines 259-262); otherwise the batch is preprocessed. -/
def load_and_preprocess (batch : Option (List RawRow)) :
    List String × List NormRow :=
  match batch with
  | none => (expected_cols, [])
  | some rows =>
      if rows.isEmpty then (expected_cols, [])
      else (expected_cols, preprocess rows)

/-- Start of the current week-to-date window, app.py lines 550-554:
`current_week_start_dt = start_date + timedelta(weeks=days_since_start // 7)`
written as a day number relative to the start date 2024-03-10 (day 0, a
Sunday), so the window start is `7 * (today // 7)`. -/
def current_week_start_dt (today : ℤ) : ℤ := 7 * (today / 7)

/-- `day_of_current_week = days_since_start % 7` of app.py line 552. -/
def day_of_current_week (today : ℤ) : ℤ := today % 7

/-- End of the current week-to-date window, app.py line 555. -/
def current_period_end_dt (today : ℤ) : ℤ :=
  current_week_start_dt today + day_of_current_week today

/-- Start of the comparison window one week earlier, app.py line 557. -/
def prev_week_start_dt (today : ℤ) : ℤ := current_week_start_dt today - 7

/-- End of the comparison window one week earlier, app.py line 558. -/
def prev_period_end_dt (today : ℤ) : ℤ :=
  prev_week_start_dt today + day_of_current_week today

/-- One record of the filtered running table the distance KPI reads:
its parsed date (day number) and its Total Distance cell. -/
structure DistRec where
  date : ℤ
  dist : ℚ
deriving DecidableEq

/-- Aggregation over a date window, app.py lines 561-567: the sum of the
distance cells of the records whose date lies in [lo, hi]. -/
def wtd_sum (recs : List DistRec) (lo hi : ℤ) : ℚ :=
  ((recs.filter (fun r => lo ≤ r.date ∧ r.date ≤ hi)).map
    (fun r => r.dist)).sum

/-- The current week-to-date aggregate of app.py lines 561-563. -/
def current_week_value (recs : List DistRec) (today : ℤ) : ℚ :=
  wtd_sum recs (current_week_start_dt today) (current_period_end_dt today)

/-- The previous week-to-date aggregate of app.py lines 565-567. -/
def prev_week_value (recs : List DistRec) (today : ℤ) : ℚ :=
  wtd_sum recs (prev_week_start_dt today) (prev_period_end_dt today)

/-- Modelled from the spec: the function "Monday_of(today)" used by the
claimed week-to-date windowing, which the source does not define (the
source aligns windows to the start date instead).  Day 0 is 2024-03-10, a
Sunday, so the Mondays are exactly the day numbers congruent to 1 modulo
7, and Monday_of maps a day to the latest Monday on or before it. -/
def monday_of (d : ℤ) : ℤ := d - (d - 1) % 7

/-- C1: for every record the derived points value equals the weighted sum
z1 + 2 z2 + 3 z3 + 4 z4 + 5 z5 of the five normalized zone-minute fields
(each raw cell coerced to a number with 0 for non-numeric), the value is
non-negative for non-negative zone inputs, and it is monotonically
non-decreasing in each zone field (raising any subset of the zone fields
by non-negative amounts never lowers the points). -/
theorem points_formula_nonneg_monotone
    (o1 o2 o3 o4 o5 : Option ℚ) (z1 z2 z3 z4 z5 d1 d2 d3 d4 d5 : ℚ) :
    pointsCalc (coerceZone o1) (coerceZone o2) (coerceZone o3)
        (coerceZone o4) (coerceZone o5)
      = coerceZone o1 + 2 * coerceZone o2 + 3 * coerceZone o3
        + 4 * coerceZone o4 + 5 * coerceZone o5
    ∧ (0 ≤ z1 → 0 ≤ z2 → 0 ≤ z3 → 0 ≤ z4 → 0 ≤ z5 →
        0 ≤ pointsCalc z1 z2 z3 z4 z5)
    ∧ (0 ≤ d1 → 0 ≤ d2 → 0 ≤ d3 → 0 ≤ d4 → 0 ≤ d5 →
        pointsCalc z1 z2 z3 z4 z5
          ≤ pointsCalc (z1 + d1) (z2 + d2) (z3 + d3) (z4 + d4) (z5 + d5)) := by
  refine ⟨by unfold pointsCalc; ring, ?_, ?_⟩
  · intro h1 h2 h3 h4 h5
    unfold pointsCalc
    nlinarith
  · intro h1 h2 h3 h4 h5
    unfold pointsCalc
    nlinarith

/-- Witness for C1 at concrete inputs: a row with zones (3, missing, 2, 0, 1)
normalizes to points 14, points of (1,2,3,4,5) are 55 and non-negative, and
raising zone 5 of that tuple by 2 raises the points. -/
theorem points_formula_nonneg_monotone_witness :
    pointsCalc (coerceZone (some 3)) (coerceZone none) (coerceZone (some 2))
        (coerceZone (some 0)) (coerceZone (some 1))
      = coerceZone (some 3) + 2 * coerceZone none + 3 * coerceZone (some 2)
        + 4 * coerceZone (some 0) + 5 * coerceZone (some 1)
    ∧ 0 ≤ pointsCalc 1 2 3 4 5
    ∧ pointsCalc 1 2 3 4 5 ≤ pointsCalc (1 + 0) (2 + 0) (3 + 0) (4 + 0) (5 + 2) :=
  ⟨(points_formula_nonneg_monotone (some 3) none (some 2) (some 0) (some 1)
      1 2 3 4 5 0 0 0 0 2).1,
   (points_formula_nonneg_monotone (some 3) none (some 2) (some 0) (some 1)
      1 2 3 4 5 0 0 0 0 2).2.1 (by norm_num) (by norm_num) (by norm_num)
      (by norm_num) (by norm_num),
   (points_formula_nonneg_monotone (some 3) none (some 2) (some 0) (some 1)
      1 2 3 4 5 0 0 0 0 2).2.2 (by norm_num) (by norm_num) (by norm_num)
      (by norm_num) (by norm_num)⟩

/-- C2: the week-assignment function maps every date of the first period
[start, E1] to week 1, maps E1 + 1 day to week 2, maps E1 + 8 days to week
3, returns exactly TOTAL_WEEKS = 8 for any date more than 7 full weeks past
E1 + 1, and its result always lies in [1, 8].  Dates are day offsets from
the start date. -/
theorem week_assignment_schedule (d : ℤ) :
    (0 ≤ d → d ≤ E1 → get_current_week d = 1)
    ∧ get_current_week (E1 + 1) = 2
    ∧ get_current_week (E1 + 8) = 3
    ∧ (E1 + 1 + 7 * 7 < d → get_current_week d = 8)
    ∧ 1 ≤ get_current_week d ∧ get_current_week d ≤ 8 := by
  refine ⟨?_, ?_, ?_, ?_, ?_, ?_⟩ <;>
    simp only [get_current_week, E1, min_def, max_def] <;>
    (try intro h1) <;> (try intro h2) <;> split_ifs <;> omega

/-- Witness for C2: day 3 is in week 1, and day 60 (more than 7 full weeks
past day 7) is clamped to week 8. -/
theorem week_assignment_schedule_witness :
    get_current_week 3 = 1 ∧ get_current_week 60 = 8 :=
  ⟨(week_assignment_schedule 3).1 (by norm_num) (by norm_num [E1]),
   (week_assignment_schedule 60).2.2.2.1 (by norm_num [E1])⟩

/-- C5: the percentage change equals (cur - prev) / prev * 100 when
prev > 0, equals exactly 100 when prev = 0 and cur > 0, and equals 0 when
both are 0; in particular (0, 0) gives 0, (0, 5) gives 100 and (10, 5)
gives -50. -/
theorem pct_change_semantics (prev cur : ℚ) :
    (0 < prev → pct_change prev cur = (cur - prev) / prev * 100)
    ∧ (prev = 0 → 0 < cur → pct_change prev cur = 100)
    ∧ (prev = 0 → cur = 0 → pct_change prev cur = 0)
    ∧ pct_change 0 0 = 0 ∧ pct_change 0 5 = 100 ∧ pct_change 10 5 = -50 := by
  refine ⟨?_, ?_, ?_, by norm_num [pct_change], by norm_num [pct_change],
    by norm_num [pct_change]⟩
  · intro h; simp [pct_change, h]
  · intro h hc; simp [pct_change, h, hc]
  · intro h hc; simp [pct_change, h, hc]

/-- Witness for C5: the three worked examples of the specification,
obtained by applying the theorem at (0,0), (0,5) and (10,5). -/
theorem pct_change_semantics_witness :
    pct_change 0 0 = 0 ∧ pct_change 0 5 = 100 ∧ pct_change 10 5 = -50 :=
  ⟨(pct_change_semantics 0 0).2.2.1 rfl rfl,
   (pct_change_semantics 0 5).2.1 rfl (by norm_num),
   ((pct_change_semantics 10 5).1 (by norm_num)).trans (by norm_num)⟩

/-- Every row produced by `mkRows` comes from one pair of the sorted
grouped table, and its fields are the ones built from that pair. -/
theorem mem_mkRows {recs : List SRec} {tw : ℕ} {top : ℚ} :
    ∀ {i : ℕ} {l : List (String × ℚ)} {row : LRow}, row ∈ mkRows recs tw top i l →
      ∃ pr ∈ l, row.participant = pr.1 ∧ row.points = pr.2
        ∧ row.pointsBehind = top - pr.2 ∧ row.weekly = weeklyTotals recs tw pr.1 := by
  intro i l
  induction l generalizing i with
  | nil => intro row h; simp [mkRows] at h
  | cons pr rest ih =>
      intro row h
      rw [mkRows] at h
      rcases List.mem_cons.mp h with h1 | h1
      · exact ⟨pr, List.mem_cons_self pr rest, by simp [h1]⟩
      · obtain ⟨pq, hpq, hrow⟩ := ih h1
        exact ⟨pq, List.mem_cons_of_mem pr hpq, hrow⟩

/-- Every pair of the sorted grouped table carries the summed points of its
participant. -/
theorem mem_sortedTotals {recs : List SRec} {pr : String × ℚ}
    (h : pr ∈ sortedTotals recs) : pr.2 = totalPoints recs pr.1 := by
  unfold sortedTotals sortDesc at h
  rw [List.mem_insertionSort] at h
  obtain ⟨p, -, hp⟩ := List.mem_map.mp h
  rw [← hp]

/-- The sorted grouped table is sorted by descending points. -/
theorem sortedTotals_sorted (recs : List SRec) :
    (sortedTotals recs).Sorted (fun a b : String × ℚ => b.2 ≤ a.2) := by
  haveI : IsTotal (String × ℚ) (fun a b => b.2 ≤ a.2) :=
    ⟨fun a b => le_total b.2 a.2⟩
  haveI : IsTrans (String × ℚ) (fun a b => b.2 ≤ a.2) :=
    ⟨fun _ _ _ h1 h2 => le_trans h2 h1⟩
  exact List.sorted_insertionSort _ _

/-- No pair of the sorted grouped table exceeds the points entry of its
first row (the quantity `max_points` of app.py line 366). -/
theorem le_topPoints {recs : List SRec} {pr : String × ℚ}
    (h : pr ∈ sortedTotals recs) : pr.2 ≤ topPoints recs := by
  have hs := sortedTotals_sorted recs
  unfold topPoints
  cases hl : sortedTotals recs with
  | nil => rw [hl] at h; simp at h
  | cons hd tl =>
      rw [hl] at h hs
      rcases List.mem_cons.mp h with h1 | h1
      · simp [h1]
      · exact le_trans ((List.sorted_cons.mp hs).1 pr h1) (by simp)

/-- Field characterization of every leaderboard row: its points entry is
the summed points of its participant, points behind is the leader total
minus its total, the weekly cells are the per-week totals, and its total
never exceeds the leader total. -/
theorem mem_leaderboardRows {recs : List SRec} {tw : ℕ} {row : LRow}
    (h : row ∈ leaderboardRows recs tw) :
    row.points = totalPoints recs row.participant
    ∧ row.pointsBehind = topPoints recs - row.points
    ∧ row.weekly = weeklyTotals recs tw row.participant
    ∧ row.points ≤ topPoints recs := by
  obtain ⟨pr, hpr, hpart, hpts, hbehind, hweekly⟩ := mem_mkRows h
  have htotal := mem_sortedTotals hpr
  have hle := le_topPoints hpr
  refine ⟨?_, ?_, ?_, ?_⟩
  · rw [hpts, htotal, hpart]
  · rw [hbehind, hpts]
  · rw [hweekly, hpart]
  · rw [hpts]; exact hle

/-- The first leaderboard row has rank 1, carries the leader total and is
0 points behind. -/
theorem head_leaderboardRows {recs : List SRec} {tw : ℕ} {hd : LRow}
    (h : (leaderboardRows recs tw).head? = some hd) :
    hd.rank = 1 ∧ hd.points = topPoints recs ∧ hd.pointsBehind = 0 := by
  unfold leaderboardRows at h
  cases hl : sortedTotals recs with
  | nil => rw [hl] at h; simp [mkRows] at h
  | cons pr tl =>
      rw [hl] at h
      have htop : topPoints recs = pr.2 := by
        unfold topPoints; rw [hl]; simp
      rw [show pr = (pr.1, pr.2) from rfl, mkRows] at h
      simp only [List.head?_cons, Option.some.injEq] at h
      rw [← h]
      refine ⟨rfl, ?_, ?_⟩ <;> simp [htop]

/-- Sum over an initial range distributes over pointwise addition. -/
theorem rangeSum_add (f g : ℕ → ℚ) (n : ℕ) :
    ((List.range n).map (fun j => f j + g j)).sum
      = ((List.range n).map f).sum + ((List.range n).map g).sum := by
  induction n with
  | zero => simp
  | succ n ih => rw [List.range_succ]; simp [ih]; ring

/-- Sums over an initial range of pointwise equal functions agree. -/
theorem rangeSum_congr {f g : ℕ → ℚ} {n : ℕ} (h : ∀ j, j < n → f j = g j) :
    ((List.range n).map f).sum = ((List.range n).map g).sum := by
  induction n with
  | zero => simp
  | succ n ih =>
      rw [List.range_succ]
      simp only [List.map_append, List.sum_append, List.map_cons, List.map_nil]
      rw [ih (fun j hj => h j (Nat.lt_succ_of_lt hj)), h n (Nat.lt_succ_self n)]

/-- Summing an indicator of a single index below the range bound yields
the indicated value. -/
theorem rangeSum_single (x : ℚ) : ∀ {n w : ℕ}, w < n →
    ((List.range n).map (fun j => if j = w then x else 0)).sum = x := by
  intro n
  induction n with
  | zero => intro w hw; omega
  | succ n ih =>
      intro w hw
      rw [List.range_succ]
      simp only [List.map_append, List.sum_append, List.map_cons, List.map_nil,
        List.sum_cons, List.sum_nil]
      rcases Nat.lt_succ_iff_lt_or_eq.mp hw with h | h
      · rw [ih h, if_neg (by omega)]; ring
      · subst h
        rw [if_pos rfl]
        rw [rangeSum_congr (g := fun _ => (0 : ℚ)) (fun j hj => if_neg (by omega))]
        simp

/-- Unfolding of the per-week sum on a cons cell. -/
theorem weekSum_cons (r : SRec) (t : List SRec) (w : ℕ) (p : String) :
    weekSum (r :: t) w p
      = (if r.participant = p ∧ r.week = some (w : ℚ) then r.points else 0)
        + weekSum t w p := by
  by_cases h : r.participant = p ∧ r.week = some (w : ℚ)
  · simp [weekSum, List.filter_cons, h]
  · simp [weekSum, List.filter_cons, h]

/-- Unfolding of the total-points sum on a cons cell. -/
theorem totalPoints_cons (r : SRec) (t : List SRec) (p : String) :
    totalPoints (r :: t) p
      = (if r.participant = p then r.points else 0) + totalPoints t p := by
  by_cases h : r.participant = p
  · simp [totalPoints, List.filter_cons, h]
  · simp [totalPoints, List.filter_cons, h]

/-- Partition law: when every record carries a numeric week in 1..8, the
per-week sums of a participant over weeks 1..8 add up to the total points
of that participant. -/
theorem total_eq_sum_weekSum (recs : List SRec) (p : String)
    (hweeks : ∀ r ∈ recs, ∃ w : ℕ, 1 ≤ w ∧ w ≤ 8 ∧ r.week = some (w : ℚ)) :
    ((List.range 8).map (fun j => weekSum recs (j + 1) p)).sum
      = totalPoints recs p := by
  induction recs with
  | nil => simp [weekSum, totalPoints]
  | cons r t ih =>
      have ht := ih (fun x hx => hweeks x (List.mem_cons_of_mem r hx))
      obtain ⟨w, hw1, hw8, hwk⟩ := hweeks r (List.mem_cons_self r t)
      rw [totalPoints_cons]
      rw [rangeSum_congr (fun j _ => weekSum_cons r t (j + 1) p),
        rangeSum_add, ht]
      congr 1
      by_cases hp : r.participant = p
      · have hind : ∀ j, j < 8 →
            (if r.participant = p ∧ r.week = some ((j + 1 : ℕ) : ℚ) then r.points else 0)
              = (if j = w - 1 then r.points else 0) := by
          intro j _
          by_cases hj : j = w - 1
          · subst hj
            rw [if_pos rfl, if_pos ⟨hp, by
              rw [hwk]; congr 1; exact_mod_cast (by omega : w = w - 1 + 1)⟩]
          · have hcond : ¬(r.participant = p ∧ r.week = some ((j + 1 : ℕ) : ℚ)) := by
              rintro ⟨-, hwj⟩
              rw [hwk] at hwj
              have h1 : (w : ℚ) = ((j + 1 : ℕ) : ℚ) := by
                exact_mod_cast Option.some.inj hwj
              have h2 : w = j + 1 := by exact_mod_cast h1
              omega
            rw [if_neg hcond, if_neg hj]
        rw [rangeSum_congr hind,
          rangeSum_single r.points (show w - 1 < 8 by omega), if_pos hp]
      · have hind : ∀ j, j < 8 →
            (if r.participant = p ∧ r.week = some ((j + 1 : ℕ) : ℚ) then r.points else 0)
              = (0 : ℚ) := by
          intro j _
          rw [if_neg]
          rintro ⟨hpp, -⟩
          exact hp hpp
        rw [if_neg hp, rangeSum_congr hind]
        simp

/-- The numpy int cast is the identity on values that are already whole
numbers. -/
theorem astypeInt_intCast (n : ℤ) : astypeInt ((n : ℤ) : ℚ) = n := by
  unfold astypeInt
  split_ifs with h
  · exact_mod_cast Int.floor_intCast n
  · rw [← Int.cast_neg, Int.floor_intCast]; ring

/-- C10 (theorem): every leaderboard row carries, for each week w in 1..8,
the participant-summed points of week w cast to an integer by truncation
(missing weeks summing to 0), while the cumulative Points cell is the
untruncated rational sum over all records of the participant. -/
theorem weekly_totals_truncated_total_exact (recs : List SRec) (row : LRow)
    (h : row ∈ leaderboardRows recs 8) :
    row.weekly
      = (List.range 8).map (fun j => astypeInt (weekSum recs (j + 1) row.participant))
    ∧ row.points = totalPoints recs row.participant := by
  obtain ⟨hpts, -, hweekly, -⟩ := mem_leaderboardRows h
  exact ⟨by rw [hweekly, weeklyTotals], hpts⟩

/-- C3 (amended theorem): when every record carries a numeric week in 1..8
and the per-week sums of the rows participant are whole numbers, the
cumulative Points cell of the leaderboard row equals the sum of its eight
weekly totals columns. -/
theorem leaderboard_total_eq_weekly_sum (recs : List SRec) (row : LRow)
    (hrow : row ∈ leaderboardRows recs 8)
    (hweeks : ∀ r ∈ recs, ∃ w : ℕ, 1 ≤ w ∧ w ≤ 8 ∧ r.week = some (w : ℚ))
    (hint : ∀ w : ℕ, 1 ≤ w → w ≤ 8 →
      ∃ n : ℤ, weekSum recs w row.participant = (n : ℚ)) :
    (row.weekly.map (fun z : ℤ => (z : ℚ))).sum = row.points := by
  obtain ⟨hpts, -, hweekly, -⟩ := mem_leaderboardRows hrow
  rw [hweekly, hpts, weeklyTotals, List.map_map]
  have hcast : ∀ j, j < 8 →
      ((fun z : ℤ => (z : ℚ)) ∘ fun j => astypeInt (weekSum recs (j + 1) row.participant)) j
        = weekSum recs (j + 1) row.participant := by
    intro j hj
    obtain ⟨n, hn⟩ := hint (j + 1) (by omega) (by omega)
    simp [Function.comp, hn, astypeInt_intCast]
  rw [rangeSum_congr hcast]
  exact total_eq_sum_weekSum recs row.participant hweeks

/-- C6 (amended theorem): in a non-empty leaderboard, every rows
points-behind value equals the first-row total minus the rows own total,
it is non-negative, it vanishes exactly when the rows total ties the
leader total (so tied runners-up also show 0), and the first row has rank
1 with points-behind 0. -/
theorem points_behind_leader_diff (recs : List SRec) (row hd : LRow)
    (hrow : row ∈ leaderboardRows recs 8)
    (hhd : (leaderboardRows recs 8).head? = some hd) :
    row.pointsBehind = hd.points - row.points
    ∧ 0 ≤ row.pointsBehind
    ∧ (row.pointsBehind = 0 ↔ row.points = hd.points)
    ∧ hd.rank = 1 ∧ hd.pointsBehind = 0 := by
  obtain ⟨-, hbehind, -, hle⟩ := mem_leaderboardRows hrow
  obtain ⟨hdrank, hdpts, hdbehind⟩ := head_leaderboardRows hhd
  refine ⟨by rw [hbehind, hdpts], ?_, ?_, hdrank, hdbehind⟩
  · rw [hbehind]; linarith
  · rw [hbehind, hdpts]
    constructor
    · intro h; linarith
    · intro h; rw [h]; ring

/-- The first-maximum search of pandas idxmax: on a non-empty list it
returns a member attaining the maximum, and on ties the earliest one. -/
theorem firstMaxBy_spec (f : LRow → ℤ) :
    ∀ l : List LRow, l ≠ [] →
      ∃ m, firstMaxBy f l = some m ∧ m ∈ l ∧ ∀ x ∈ l, f x ≤ f m := by
  intro l
  induction l with
  | nil => intro h; exact absurd rfl h
  | cons r rs ih =>
      intro _
      by_cases hrs : rs = []
      · subst hrs
        refine ⟨r, rfl, List.mem_cons_self r [], ?_⟩
        intro x hx
        rcases List.mem_singleton.mp hx with rfl
        exact le_refl _
      · obtain ⟨m, hm, hmem, hall⟩ := ih hrs
        simp only [firstMaxBy, hm]
        by_cases hcmp : f r < f m
        · refine ⟨m, by rw [if_pos hcmp], List.mem_cons_of_mem r hmem, ?_⟩
          intro x hx
          rcases List.mem_cons.mp hx with rfl | hx
          · exact le_of_lt hcmp
          · exact hall x hx
        · refine ⟨r, by rw [if_neg hcmp], List.mem_cons_self r rs, ?_⟩
          intro x hx
          rcases List.mem_cons.mp hx with rfl | hx
          · exact le_refl _
          · exact le_trans (hall x hx) (not_lt.mp hcmp)

/-- C7 (amended theorem): under the source guards (positive current week,
non-empty leaderboard, existing week column) the biggest-mover view always
returns the participant of the first leaderboard row attaining the maximum
current-week value, together with that value; in particular when every
current-week value is 0 it still reports that first participant with value
0 instead of reporting no mover. -/
theorem biggest_mover_first_max (recs : List SRec) (cw tw : ℕ)
    (h1 : 0 < cw) (h2 : leaderboardRows recs tw ≠ []) (h3 : cw ≤ tw) :
    ∃ row, row ∈ leaderboardRows recs tw
      ∧ biggest_mover recs cw tw = some (row.participant, weeklyVal row cw)
      ∧ ∀ q ∈ leaderboardRows recs tw, weeklyVal q cw ≤ weeklyVal row cw := by
  obtain ⟨m, hm, hmem, hall⟩ := firstMaxBy_spec (fun row => weeklyVal row cw) _ h2
  refine ⟨m, hmem, ?_, hall⟩
  unfold biggest_mover
  rw [if_pos ⟨h1, h2, h3⟩, hm]
  rfl

/-- C4 (counterexample): on Monday 2024-03-11 (day 1) the source starts the
current week-to-date window at day 0, the Sunday the competition started,
while Monday_of(day 1) is day 1 itself; a 5-mile run logged on that Sunday
is counted by the source as part of the current week-to-date aggregate but
lies outside the window [Monday_of(today), today] of the claim. -/
theorem wtd_window_not_monday_cex :
    current_week_start_dt 1 = 0 ∧ monday_of 1 = 1
    ∧ current_week_start_dt 1 ≠ monday_of 1
    ∧ current_week_value [⟨0, 5⟩] 1 = 5
    ∧ wtd_sum [⟨0, 5⟩] (monday_of 1) 1 = 0 := by
  refine ⟨by decide, by decide, by decide, ?_, ?_⟩
  · norm_num [current_week_value, wtd_sum, current_week_start_dt,
      current_period_end_dt, day_of_current_week, List.filter_cons]
  · norm_num [wtd_sum, monday_of, List.filter_cons]

/-- C4 (amended theorem): for every reference date on or after the
competition start, the current window of the week-to-date comparisons ends
at today, starts at most 6 days earlier on a day number divisible by 7 —
the weekday of the competition start (a Sunday in this deployment), not
the Monday of the current week — and the previous window is the same
window shifted back exactly 7 days, so both windows share the same
elapsed-day offset. -/
theorem wtd_windows_start_aligned (recs : List DistRec) (today : ℤ)
    (htoday : 0 ≤ today) :
    current_period_end_dt today = today
    ∧ current_week_start_dt today ≤ today
    ∧ today - current_week_start_dt today < 7
    ∧ current_week_start_dt today % 7 = 0
    ∧ prev_week_start_dt today = current_week_start_dt today - 7
    ∧ prev_period_end_dt today = today - 7
    ∧ current_week_value recs today
        = wtd_sum recs (current_week_start_dt today) today
    ∧ prev_week_value recs today
        = wtd_sum recs (current_week_start_dt today - 7) (today - 7) := by
  have he : current_period_end_dt today = today := by
    unfold current_period_end_dt current_week_start_dt day_of_current_week
    omega
  have hpe : prev_period_end_dt today = today - 7 := by
    unfold prev_period_end_dt prev_week_start_dt current_week_start_dt
      day_of_current_week
    omega
  refine ⟨he, ?_, ?_, ?_, rfl, hpe, ?_, ?_⟩
  · unfold current_week_start_dt; omega
  · unfold current_week_start_dt; omega
  · unfold current_week_start_dt; omega
  · unfold current_week_value; rw [he]
  · unfold prev_week_value; rw [hpe]; rfl

/-- Witness for the amended C4 at today = day 8 (a Monday) with one record:
the current window is [7, 8] and the previous window is [0, 1]. -/
theorem wtd_windows_start_aligned_witness :
    current_period_end_dt 8 = 8
    ∧ current_week_start_dt 8 ≤ 8
    ∧ (8 : ℤ) - current_week_start_dt 8 < 7
    ∧ current_week_start_dt 8 % 7 = 0
    ∧ prev_week_start_dt 8 = current_week_start_dt 8 - 7
    ∧ prev_period_end_dt 8 = 8 - 7
    ∧ current_week_value [⟨0, 5⟩] 8
        = wtd_sum [⟨0, 5⟩] (current_week_start_dt 8) 8
    ∧ prev_week_value [⟨0, 5⟩] 8
        = wtd_sum [⟨0, 5⟩] (current_week_start_dt 8 - 7) (8 - 7) :=
  wtd_windows_start_aligned [⟨0, 5⟩] 8 (by norm_num)

/-- Helper: a coerced zone cell is non-negative whenever every numeric
value the raw cell may carry is non-negative. -/
theorem coerceZone_nonneg (o : Option ℚ) (h : ∀ q : ℚ, o = some q → 0 ≤ q) :
    0 ≤ coerceZone o := by
  cases o with
  | none => simp [coerceZone]
  | some q => simpa [coerceZone] using h q rfl

/-- C8 (counterexample): a raw batch may supply a negative numeric zone
value; the normalizer passes it through unchanged, so the normalized zone
field and the derived points are negative, against the claim that they are
non-negative whatever the raw batch supplied. -/
theorem negative_zone_passthrough_cex :
    preprocess [⟨some 0, "A", some (-1), none, none, none, none, some 1⟩]
      = [{ date := 0, participant := "A", z1 := -1, z2 := 0, z3 := 0,
           z4 := 0, z5 := 0, points := -1, week := some 1 }]
    ∧ ({ date := 0, participant := "A", z1 := -1, z2 := 0, z3 := 0,
         z4 := 0, z5 := 0, points := -1, week := some 1 } : NormRow).z1 < 0
    ∧ ({ date := 0, participant := "A", z1 := -1, z2 := 0, z3 := 0,
         z4 := 0, z5 := 0, points := -1, week := some 1 } : NormRow).points < 0 := by
  refine ⟨?_, by norm_num, by norm_num⟩
  norm_num [preprocess, normRow, coerceZone, pointsCalc, List.insertionSort,
    List.orderedInsert, List.filter_cons]

/-- C8 (amended theorem): after normalization every zone field equals 0
for a non-numeric raw cell and the raw value otherwise; consequently, when
every numeric zone value the raw batch supplies is non-negative, every
normalized row has five non-negative zone fields and a non-negative
points value.  (A negative raw value passes through unchanged, see the
counterexample.) -/
theorem normalized_zones_nonneg_of_nonneg_input (rows : List RawRow)
    (hz : ∀ r ∈ rows,
      (∀ q : ℚ, r.zone1 = some q → 0 ≤ q) ∧ (∀ q : ℚ, r.zone2 = some q → 0 ≤ q)
      ∧ (∀ q : ℚ, r.zone3 = some q → 0 ≤ q) ∧ (∀ q : ℚ, r.zone4 = some q → 0 ≤ q)
      ∧ (∀ q : ℚ, r.zone5 = some q → 0 ≤ q)) :
    ∀ n ∈ preprocess rows, 0 ≤ n.z1 ∧ 0 ≤ n.z2 ∧ 0 ≤ n.z3 ∧ 0 ≤ n.z4
      ∧ 0 ≤ n.z5 ∧ 0 ≤ n.points := by
  intro n hn
  unfold preprocess at hn
  rw [List.mem_map] at hn
  obtain ⟨r, hr, hnr⟩ := hn
  rw [List.mem_insertionSort, List.mem_filter] at hr
  obtain ⟨h1, h2, h3, h4, h5⟩ := hz r hr.1
  have z1 := coerceZone_nonneg r.zone1 h1
  have z2 := coerceZone_nonneg r.zone2 h2
  have z3 := coerceZone_nonneg r.zone3 h3
  have z4 := coerceZone_nonneg r.zone4 h4
  have z5 := coerceZone_nonneg r.zone5 h5
  subst hnr
  refine ⟨z1, z2, z3, z4, z5, ?_⟩
  show 0 ≤ pointsCalc (coerceZone r.zone1) (coerceZone r.zone2)
    (coerceZone r.zone3) (coerceZone r.zone4) (coerceZone r.zone5)
  unfold pointsCalc
  nlinarith

/-- Witness for the amended C8: a one-row batch with non-negative and
missing zone cells; applying the theorem at its normalized row gives the
non-negativity of all fields. -/
theorem normalized_zones_nonneg_witness :
    0 ≤ (normRow ⟨some 0, "A", some 3, none, some 2, some 0, some 1, some 1⟩).z1
    ∧ 0 ≤ (normRow ⟨some 0, "A", some 3, none, some 2, some 0, some 1, some 1⟩).z2
    ∧ 0 ≤ (normRow ⟨some 0, "A", some 3, none, some 2, some 0, some 1, some 1⟩).z3
    ∧ 0 ≤ (normRow ⟨some 0, "A", some 3, none, some 2, some 0, some 1, some 1⟩).z4
    ∧ 0 ≤ (normRow ⟨some 0, "A", some 3, none, some 2, some 0, some 1, some 1⟩).z5
    ∧ 0 ≤ (normRow ⟨some 0, "A", some 3, none, some 2, some 0, some 1, some 1⟩).points :=
  normalized_zones_nonneg_of_nonneg_input
    [⟨some 0, "A", some 3, none, some 2, some 0, some 1, some 1⟩]
    (by
      intro r hr
      rcases List.mem_singleton.mp hr with rfl
      refine ⟨?_, ?_, ?_, ?_, ?_⟩
      · intro q hq
        have h3 : some (3 : ℚ) = some q := hq
        rw [← Option.some.inj h3]; norm_num
      · intro q hq
        exact absurd hq (by simp)
      · intro q hq
        have h2 : some (2 : ℚ) = some q := hq
        rw [← Option.some.inj h2]; norm_num
      · intro q hq
        have h0 : some (0 : ℚ) = some q := hq
        rw [← Option.some.inj h0]
      · intro q hq
        have h1 : some (1 : ℚ) = some q := hq
        rw [← Option.some.inj h1]; norm_num)
    (normRow ⟨some 0, "A", some 3, none, some 2, some 0, some 1, some 1⟩)
    (by
      unfold preprocess
      simp [List.insertionSort, List.orderedInsert, List.filter_cons])

/-- C9: a failed load or an empty batch makes the normalization branch
return the empty table with the full expected column set, and the
leaderboard aggregator maps an empty record table — or one missing the
Participant or Points column — to the empty leaderboard structure with
its column set, without any failure (all functions involved are total). -/
theorem empty_pipeline_safe (hp hq : Bool) (recs recs2 : List SRec)
    (tw : ℕ) (h : recs = []) :
    load_and_preprocess none = (expected_cols, [])
    ∧ load_and_preprocess (some []) = (expected_cols, [])
    ∧ calculate_leaderboard hp hq recs tw = (leaderboard_base_cols, [])
    ∧ calculate_leaderboard false hq recs2 tw = (leaderboard_base_cols, [])
    ∧ calculate_leaderboard hp false recs2 tw = (leaderboard_base_cols, []) := by
  subst h
  refine ⟨rfl, rfl, ?_, ?_, ?_⟩ <;> simp [calculate_leaderboard]

/-- Witness for C9 at concrete inputs: both column flags set with no
records, and a one-record table with a missing Participant or Points
column. -/
theorem empty_pipeline_safe_witness :
    load_and_preprocess none = (expected_cols, [])
    ∧ load_and_preprocess (some []) = (expected_cols, [])
    ∧ calculate_leaderboard true true [] 8 = (leaderboard_base_cols, [])
    ∧ calculate_leaderboard false true [⟨"A", some 1, 1⟩] 8
        = (leaderboard_base_cols, [])
    ∧ calculate_leaderboard true false [⟨"A", some 1, 1⟩] 8
        = (leaderboard_base_cols, []) :=
  empty_pipeline_safe true true [] [⟨"A", some 1, 1⟩] 8 rfl

/-- C3 (counterexample): a single activity with a fractional points value
(zone minutes need not be whole numbers) yields a leaderboard whose Week 1
Totals cell is the truncation 0 of 1/2, so the sum 0 of the per-week
columns differs from the cumulative Points total 1/2. -/
theorem weekly_sum_ne_total_cex :
    leaderboardRows [⟨"A", some 1, 1/2⟩] 8
      = [{ rank := 1, participant := "A", points := 1/2, pointsBehind := 0,
           weekly := [0, 0, 0, 0, 0, 0, 0, 0] }]
    ∧ (([0, 0, 0, 0, 0, 0, 0, 0] : List ℤ).map (fun z : ℤ => (z : ℚ))).sum
        ≠ (1/2 : ℚ) := by
  constructor
  · norm_num [leaderboardRows, mkRows, sortedTotals, sortDesc, groupTotals,
      participantsSorted, totalPoints, topPoints, weeklyTotals, weekSum,
      astypeInt, strLe, dataLt, charVal, List.insertionSort,
      List.orderedInsert, List.dedup_cons_of_mem, List.dedup_cons_of_not_mem,
      List.dedup_nil, List.filter_cons, List.range_succ]
  · norm_num

/-- Witness for the amended C3: a participant with 10 points in week 1 and
5 points in week 2; the weekly columns are [10, 5, 0, ..., 0] and their
sum is the cumulative total 15. -/
theorem leaderboard_total_eq_weekly_sum_witness :
    ((({ rank := 1, participant := "A", points := 15, pointsBehind := 0,
         weekly := [10, 5, 0, 0, 0, 0, 0, 0] } : LRow).weekly.map
        (fun z : ℤ => (z : ℚ))).sum
      = ({ rank := 1, participant := "A", points := 15, pointsBehind := 0,
           weekly := [10, 5, 0, 0, 0, 0, 0, 0] } : LRow).points) :=
  leaderboard_total_eq_weekly_sum
    [⟨"A", some 1, 10⟩, ⟨"A", some 2, 5⟩]
    { rank := 1, participant := "A", points := 15, pointsBehind := 0,
      weekly := [10, 5, 0, 0, 0, 0, 0, 0] }
    (by
      have heval : leaderboardRows [⟨"A", some 1, 10⟩, ⟨"A", some 2, 5⟩] 8
          = [{ rank := 1, participant := "A", points := 15, pointsBehind := 0,
               weekly := [10, 5, 0, 0, 0, 0, 0, 0] }] := by
        norm_num [leaderboardRows, mkRows, sortedTotals, sortDesc, groupTotals,
          participantsSorted, totalPoints, topPoints, weeklyTotals, weekSum,
          astypeInt, strLe, dataLt, charVal, List.insertionSort,
          List.orderedInsert, List.dedup_cons_of_mem, List.dedup_cons_of_not_mem,
          List.dedup_nil, List.filter_cons, List.range_succ]
      rw [heval]
      exact List.mem_singleton.mpr rfl)
    (by
      intro r hr
      rcases List.mem_cons.mp hr with rfl | hr
      · exact ⟨1, by norm_num, by norm_num, by norm_num⟩
      rcases List.mem_singleton.mp hr with rfl
      exact ⟨2, by norm_num, by norm_num, by norm_num⟩)
    (by
      intro w h1 h8
      interval_cases w
      · exact ⟨10, by norm_num [weekSum, List.filter_cons]⟩
      · exact ⟨5, by norm_num [weekSum, List.filter_cons]⟩
      · exact ⟨0, by norm_num [weekSum, List.filter_cons]⟩
      · exact ⟨0, by norm_num [weekSum, List.filter_cons]⟩
      · exact ⟨0, by norm_num [weekSum, List.filter_cons]⟩
      · exact ⟨0, by norm_num [weekSum, List.filter_cons]⟩
      · exact ⟨0, by norm_num [weekSum, List.filter_cons]⟩
      · exact ⟨0, by norm_num [weekSum, List.filter_cons]⟩)

/-- C6 (counterexample): two participants tied at 10 points produce a
leaderboard whose ranks are 1 and 2 (positional, not dense), and the
points-behind value is 0 on the rank-2 row as well, so points-behind is
not 0 exactly on the rank-1 rows. -/
theorem points_behind_zero_tie_cex :
    leaderboardRows [⟨"A", some 1, 10⟩, ⟨"B", some 1, 10⟩] 8
      = [{ rank := 1, participant := "A", points := 10, pointsBehind := 0,
           weekly := [10, 0, 0, 0, 0, 0, 0, 0] },
         { rank := 2, participant := "B", points := 10, pointsBehind := 0,
           weekly := [10, 0, 0, 0, 0, 0, 0, 0] }]
    ∧ (leaderboardRows [⟨"A", some 1, 10⟩, ⟨"B", some 1, 10⟩] 8).map
        (fun row => (row.rank, row.pointsBehind)) = [(1, 0), (2, 0)] := by
  have hAB : ("A" : String) ≠ "B" := by simp
  have hBA : ("B" : String) ≠ "A" := by simp
  have hA : ('A').toNat = 65 := by simp
  have hB : ('B').toNat = 66 := by simp
  have heval : leaderboardRows [⟨"A", some 1, 10⟩, ⟨"B", some 1, 10⟩] 8
      = [{ rank := 1, participant := "A", points := 10, pointsBehind := 0,
           weekly := [10, 0, 0, 0, 0, 0, 0, 0] },
         { rank := 2, participant := "B", points := 10, pointsBehind := 0,
           weekly := [10, 0, 0, 0, 0, 0, 0, 0] }] := by
    norm_num [leaderboardRows, mkRows, sortedTotals, sortDesc, groupTotals,
      participantsSorted, totalPoints, topPoints, weeklyTotals, weekSum,
      astypeInt, strLe, dataLt, charVal, List.insertionSort, List.orderedInsert,
      List.dedup_cons_of_mem, List.dedup_cons_of_not_mem, List.dedup_nil,
      List.filter_cons, List.range_succ, hAB, hBA, hA, hB]
  exact ⟨heval, by rw [heval]; simp⟩

/-- Witness for the amended C6 on a two-participant table with totals 10
and 7: the trailing row is 3 points behind, non-negative, not tied with
the leader, and the first row has rank 1 and 0 points behind. -/
theorem points_behind_leader_diff_witness :
    ({ rank := 2, participant := "B", points := 7, pointsBehind := 3,
       weekly := [7, 0, 0, 0, 0, 0, 0, 0] } : LRow).pointsBehind
      = ({ rank := 1, participant := "A", points := 10, pointsBehind := 0,
           weekly := [10, 0, 0, 0, 0, 0, 0, 0] } : LRow).points
        - ({ rank := 2, participant := "B", points := 7, pointsBehind := 3,
             weekly := [7, 0, 0, 0, 0, 0, 0, 0] } : LRow).points
    ∧ 0 ≤ ({ rank := 2, participant := "B", points := 7, pointsBehind := 3,
             weekly := [7, 0, 0, 0, 0, 0, 0, 0] } : LRow).pointsBehind
    ∧ (({ rank := 2, participant := "B", points := 7, pointsBehind := 3,
          weekly := [7, 0, 0, 0, 0, 0, 0, 0] } : LRow).pointsBehind = 0
        ↔ ({ rank := 2, participant := "B", points := 7, pointsBehind := 3,
             weekly := [7, 0, 0, 0, 0, 0, 0, 0] } : LRow).points
          = ({ rank := 1, participant := "A", points := 10, pointsBehind := 0,
               weekly := [10, 0, 0, 0, 0, 0, 0, 0] } : LRow).points)
    ∧ ({ rank := 1, participant := "A", points := 10, pointsBehind := 0,
         weekly := [10, 0, 0, 0, 0, 0, 0, 0] } : LRow).rank = 1
    ∧ ({ rank := 1, participant := "A", points := 10, pointsBehind := 0,
         weekly := [10, 0, 0, 0, 0, 0, 0, 0] } : LRow).pointsBehind = 0 := by
  have hAB : ("A" : String) ≠ "B" := by simp
  have hBA : ("B" : String) ≠ "A" := by simp
  have hA : ('A').toNat = 65 := by simp
  have hB : ('B').toNat = 66 := by simp
  have heval : leaderboardRows [⟨"A", some 1, 10⟩, ⟨"B", some 1, 7⟩] 8
      = [{ rank := 1, participant := "A", points := 10, pointsBehind := 0,
           weekly := [10, 0, 0, 0, 0, 0, 0, 0] },
         { rank := 2, participant := "B", points := 7, pointsBehind := 3,
           weekly := [7, 0, 0, 0, 0, 0, 0, 0] }] := by
    norm_num [leaderboardRows, mkRows, sortedTotals, sortDesc, groupTotals,
      participantsSorted, totalPoints, topPoints, weeklyTotals, weekSum,
      astypeInt, strLe, dataLt, charVal, List.insertionSort, List.orderedInsert,
      List.dedup_cons_of_mem, List.dedup_cons_of_not_mem, List.dedup_nil,
      List.filter_cons, List.range_succ, hAB, hBA, hA, hB]
  exact points_behind_leader_diff [⟨"A", some 1, 10⟩, ⟨"B", some 1, 7⟩]
    { rank := 2, participant := "B", points := 7, pointsBehind := 3,
      weekly := [7, 0, 0, 0, 0, 0, 0, 0] }
    { rank := 1, participant := "A", points := 10, pointsBehind := 0,
      weekly := [10, 0, 0, 0, 0, 0, 0, 0] }
    (by rw [heval]; exact List.mem_cons_of_mem _ (List.mem_singleton.mpr rfl))
    (by rw [heval]; rfl)

/-- C7 (counterexample): with current week 2 and two participants whose
activities all lie in week 1, every Week 2 Totals value is 0, yet the
biggest-mover view still reports the first leaderboard participant with 0
points instead of reporting that there is no mover. -/
theorem biggest_mover_all_zero_cex :
    (leaderboardRows [⟨"A", some 1, 10⟩, ⟨"B", some 1, 7⟩] 8).map
      (fun row => weeklyVal row 2) = [0, 0]
    ∧ biggest_mover [⟨"A", some 1, 10⟩, ⟨"B", some 1, 7⟩] 2 8
        = some ("A", 0) := by
  have hAB : ("A" : String) ≠ "B" := by simp
  have hBA : ("B" : String) ≠ "A" := by simp
  have hA : ('A').toNat = 65 := by simp
  have hB : ('B').toNat = 66 := by simp
  have heval : leaderboardRows [⟨"A", some 1, 10⟩, ⟨"B", some 1, 7⟩] 8
      = [{ rank := 1, participant := "A", points := 10, pointsBehind := 0,
           weekly := [10, 0, 0, 0, 0, 0, 0, 0] },
         { rank := 2, participant := "B", points := 7, pointsBehind := 3,
           weekly := [7, 0, 0, 0, 0, 0, 0, 0] }] := by
    norm_num [leaderboardRows, mkRows, sortedTotals, sortDesc, groupTotals,
      participantsSorted, totalPoints, topPoints, weeklyTotals, weekSum,
      astypeInt, strLe, dataLt, charVal, List.insertionSort, List.orderedInsert,
      List.dedup_cons_of_mem, List.dedup_cons_of_not_mem, List.dedup_nil,
      List.filter_cons, List.range_succ, hAB, hBA, hA, hB]
  constructor
  · rw [heval]
    norm_num [weeklyVal, List.getD]
  · unfold biggest_mover
    rw [heval]
    norm_num [firstMaxBy, weeklyVal, List.getD]
    exact fun hfalse => absurd hfalse (by simp)

/-- Witness for the amended C7: on a one-participant table with current
week 1, the biggest-mover view returns a participant (it is never the
no-mover answer under the guards). -/
theorem biggest_mover_first_max_witness :
    biggest_mover [⟨"A", some 1, 10⟩] 1 8 ≠ none := by
  have heval : leaderboardRows [⟨"A", some 1, 10⟩] 8
      = [{ rank := 1, participant := "A", points := 10, pointsBehind := 0,
           weekly := [10, 0, 0, 0, 0, 0, 0, 0] }] := by
    norm_num [leaderboardRows, mkRows, sortedTotals, sortDesc, groupTotals,
      participantsSorted, totalPoints, topPoints, weeklyTotals, weekSum,
      astypeInt, strLe, dataLt, charVal, List.insertionSort, List.orderedInsert,
      List.dedup_cons_of_mem, List.dedup_cons_of_not_mem, List.dedup_nil,
      List.filter_cons, List.range_succ]
  obtain ⟨row, hmem, heq, hall⟩ :=
    biggest_mover_first_max [⟨"A", some 1, 10⟩] 1 8 (by norm_num)
      (by rw [heval]; simp) (by norm_num)
  rw [heq]
  simp

/-- Witness for C10: a single activity worth 3/2 points in week 1; the
leaderboard row keeps the exact total 3/2 while its Week 1 Totals cell is
the truncation of 3/2. -/
theorem weekly_totals_truncated_witness :
    ({ rank := 1, participant := "A", points := 3/2, pointsBehind := 0,
       weekly := [1, 0, 0, 0, 0, 0, 0, 0] } : LRow).weekly
      = (List.range 8).map (fun j => astypeInt (weekSum [⟨"A", some 1, 3/2⟩] (j + 1)
          ({ rank := 1, participant := "A", points := 3/2, pointsBehind := 0,
             weekly := [1, 0, 0, 0, 0, 0, 0, 0] } : LRow).participant))
    ∧ ({ rank := 1, participant := "A", points := 3/2, pointsBehind := 0,
         weekly := [1, 0, 0, 0, 0, 0, 0, 0] } : LRow).points
      = totalPoints [⟨"A", some 1, 3/2⟩]
          ({ rank := 1, participant := "A", points := 3/2, pointsBehind := 0,
             weekly := [1, 0, 0, 0, 0, 0, 0, 0] } : LRow).participant :=
  weekly_totals_truncated_total_exact [⟨"A", some 1, 3/2⟩]
    { rank := 1, participant := "A", points := 3/2, pointsBehind := 0,
      weekly := [1, 0, 0, 0, 0, 0, 0, 0] }
    (by
      have heval : leaderboardRows [⟨"A", some 1, 3/2⟩] 8
          = [{ rank := 1, participant := "A", points := 3/2, pointsBehind := 0,
               weekly := [1, 0, 0, 0, 0, 0, 0, 0] }] := by
        norm_num [leaderboardRows, mkRows, sortedTotals, sortDesc, groupTotals,
          participantsSorted, totalPoints, topPoints, weeklyTotals, weekSum,
          astypeInt, strLe, dataLt, charVal, List.insertionSort,
          List.orderedInsert, List.dedup_cons_of_mem, List.dedup_cons_of_not_mem,
          List.dedup_nil, List.filter_cons, List.range_succ]
      rw [heval]
      exact List.mem_singleton.mpr rfl)
